import Mathlib

/-!
Shallow embedding of the flow-feature extractor from
`spotify_playlist_dataset_generator.py` (class `SpotifyGenreClassificationDataset`,
methods `packet_callback` and `compute_flow_features`).

Python floats are modelled as exact rationals (`ℚ`); `np.std` (a square root of a
rational variance) is modelled in `ℝ` via `Real.sqrt`.  Division by zero in the
Python code is always guarded; the guards are reproduced literally.
-/

/-- One captured packet, as stored by `packet_callback` in `self.current_capture`:
a dict with keys `arrival_time`, `payload_size`, `inter_arrival`. -/
structure Packet where
  arrival_time : ℚ
  payload_size : ℚ
  inter_arrival : ℚ
deriving DecidableEq, Repr

/-- The constant `BURST_WINDOW = 0.5` from `compute_flow_features`. -/
def BURST_WINDOW : ℚ := 1 / 2

/-- The constant `SILENCE_THRESHOLD = 2.0` from `compute_flow_features`. -/
def SILENCE_THRESHOLD : ℚ := 2

/-- `np.mean`: sum divided by length (callers guard the empty case). -/
def npMean (l : List ℚ) : ℚ := l.sum / l.length

/-- `np.var` with `ddof=0` (the value under `np.std`): mean of squared deviations. -/
def npVar (l : List ℚ) : ℚ := npMean (l.map (fun x => (x - npMean l) ^ 2))

/-- `np.std` with `ddof=0`: square root of the population variance. -/
noncomputable def npStd (l : List ℚ) : ℝ := Real.sqrt ((npVar l : ℚ) : ℝ)

/-- `np.percentile(l, 95)` with the default linear-interpolation method:
sort, take rank `0.95 * (n - 1)`, and interpolate between the two
neighbouring order statistics. -/
def percentile95 (l : List ℚ) : ℚ :=
  let s := List.insertionSort (· ≤ ·) l
  let rank : ℚ := 95 / 100 * ((s.length : ℚ) - 1)
  let i : ℕ := rank.floor.toNat
  let frac : ℚ := rank - (i : ℚ)
  match s[i]?, s[i + 1]? with
  | some lo, some hi => lo + frac * (hi - lo)
  | some lo, none => lo
  | none, _ => 0

/-- The burst-detection loop of `compute_flow_features`:
`window = [x for x in window if t - x <= BURST_WINDOW]; window.append(t);
bursts.append(len(window))`, with the running `window` as accumulator. -/
def burstAux (window : List ℚ) : List ℚ → List ℕ
  | [] => []
  | t :: rest =>
    let w := window.filter (fun x => t - x ≤ BURST_WINDOW) ++ [t]
    w.length :: burstAux w rest

/-- The list `bursts` produced by the burst-detection loop, starting from the
empty window. -/
def burstCounts (ts : List ℚ) : List ℕ := burstAux [] ts

/-- Modelled from the spec: the intended per-packet burst count.  For the packet
at time `t`, count the packets at or before it in the sequence whose arrival
time lies in the closed interval `[t - 0.5, t]`.  `pre` holds the arrival times
already processed. -/
def burstSpecAux (pre : List ℚ) : List ℚ → List ℕ
  | [] => []
  | t :: rest =>
    (pre ++ [t]).countP (fun x => decide (t - BURST_WINDOW ≤ x ∧ x ≤ t)) ::
      burstSpecAux (pre ++ [t]) rest

/-- Modelled from the spec: the intended burst-count sequence for a list of
arrival times. -/
def burstCountsSpec (ts : List ℚ) : List ℕ := burstSpecAux [] ts

/-- Cost instrumentation of the burst-detection loop: the list comprehension
`[x for x in window if t - x <= BURST_WINDOW]` evaluates its predicate once per
element of the current window, so each iteration costs `window.length`
predicate evaluations. -/
def burstAuxCost (window : List ℚ) : List ℚ → ℕ
  | [] => 0
  | t :: rest =>
    window.length + burstAuxCost (window.filter (fun x => t - x ≤ BURST_WINDOW) ++ [t]) rest

/-- Total number of filter-predicate evaluations performed by the burst loop. -/
def burstCost (ts : List ℚ) : ℕ := burstAuxCost [] ts

/-- The feature record returned by `compute_flow_features` (13 numeric fields). -/
structure FeatureRecord where
  pkt_size_mean : ℚ
  pkt_size_std : ℝ
  pkt_size_cv : ℝ
  inter_mean : ℚ
  inter_std : ℝ
  inter_cv : ℝ
  p95_inter : ℚ
  burst_mean : ℚ
  burst_max : ℕ
  num_silence_gaps : ℕ
  silence_ratio : ℚ
  flow_duration : ℚ
  pkt_rate : ℚ

/-- `compute_flow_features`, translated clause by clause from the source.
The early return for an empty capture produces the all-zero record; otherwise
`pkt_sizes`, `inter_arrivals` (dropping the first stored value) and
`timestamps` are extracted and the 13 statistics are computed with the same
guards as the Python code. -/
noncomputable def computeFlowFeatures (capture : List Packet) : FeatureRecord :=
  if capture.isEmpty then
    { pkt_size_mean := 0, pkt_size_std := 0, pkt_size_cv := 0
      inter_mean := 0, inter_std := 0, inter_cv := 0, p95_inter := 0
      burst_mean := 0, burst_max := 0, num_silence_gaps := 0
      silence_ratio := 0, flow_duration := 0, pkt_rate := 0 }
  else
    let pkt_sizes := capture.map Packet.payload_size
    let inter_arrivals := capture.tail.map Packet.inter_arrival
    let timestamps := capture.map Packet.arrival_time
    let pkt_size_mean := npMean pkt_sizes
    let pkt_size_std := npStd pkt_sizes
    let inter_mean := if 0 < inter_arrivals.length then npMean inter_arrivals else 0
    let inter_std : ℝ := if 0 < inter_arrivals.length then npStd inter_arrivals else 0
    let bursts := burstCounts timestamps
    let silence_gaps := inter_arrivals.filter (fun x => SILENCE_THRESHOLD < x)
    let flow_duration :=
      if 1 < timestamps.length then timestamps.getLastD 0 - timestamps.headD 0 else 0
    { pkt_size_mean := pkt_size_mean
      pkt_size_std := pkt_size_std
      pkt_size_cv := if pkt_size_mean = 0 then 0 else pkt_size_std / (pkt_size_mean : ℝ)
      inter_mean := inter_mean
      inter_std := inter_std
      inter_cv := if inter_mean = 0 then 0 else inter_std / (inter_mean : ℝ)
      p95_inter := if 0 < inter_arrivals.length then percentile95 inter_arrivals else 0
      burst_mean := if bursts = [] then 0 else npMean (bursts.map (fun n : ℕ => (n : ℚ)))
      burst_max := (bursts.max?).getD 0
      num_silence_gaps := silence_gaps.length
      silence_ratio :=
        if 0 < inter_arrivals.sum then silence_gaps.sum / inter_arrivals.sum else 0
      flow_duration := flow_duration
      pkt_rate := if 0 < flow_duration then (capture.length : ℚ) / flow_duration else 0 }

/-- The mutable state of `SpotifyGenreClassificationDataset` that the capture
pipeline touches: `self.current_capture` and `self.last_packet_time`. -/
structure DatasetState where
  current_capture : List Packet
  last_packet_time : Option ℚ

/-- `compute_flow_features` as the source calls it: a method reading
`self.current_capture` from the object state. -/
noncomputable def computeFlowFeaturesFrom (st : DatasetState) : FeatureRecord :=
  computeFlowFeatures st.current_capture

/-- `packet_callback`: appends a packet whose `inter_arrival` is `0` for the
first packet of a capture (when `self.last_packet_time is None`) and the
difference to the previous arrival time otherwise. -/
def packetCallback (st : DatasetState) (t s : ℚ) : DatasetState :=
  let ia := match st.last_packet_time with
    | none => 0
    | some lt => t - lt
  { current_capture := st.current_capture ++ [⟨t, s, ia⟩], last_packet_time := some t }

/-- The capture list built by running `packet_callback` over a sequence of
(arrival time, payload size) observations, starting with
`last_packet_time = None`. -/
def buildCaptureAux (last : Option ℚ) : List (ℚ × ℚ) → List Packet
  | [] => []
  | (t, s) :: rest =>
    let ia := match last with
      | none => 0
      | some lt => t - lt
    ⟨t, s, ia⟩ :: buildCaptureAux (some t) rest

/-- The capture produced by `packet_callback` on a fresh capture
(`self.current_capture = []`, `self.last_packet_time = None`). -/
def buildCapture (obs : List (ℚ × ℚ)) : List Packet := buildCaptureAux none obs

/-- Replace the stored `inter_arrival` of the first packet (if any) by `v`. -/
def setFirstInterArrival : List Packet → ℚ → List Packet
  | [], _ => []
  | p :: rest, v => ⟨p.arrival_time, p.payload_size, v⟩ :: rest

/-- The five-packet capture of the spec's concrete scenario: arrival times
`[0.0, 0.1, 0.2, 3.0, 3.1]`, payload sizes `[100, 200, 150, 300, 100]`. -/
def scenarioCapture : List Packet :=
  buildCapture [(0, 100), (1 / 10, 200), (1 / 5, 150), (3, 300), (31 / 10, 100)]

/-- A two-packet capture used to instantiate sorted-timestamp theorems. -/
def twoPacketCapture : List Packet := [⟨0, 1, 0⟩, ⟨1 / 4, 1, 1 / 4⟩]

/-- C1: for the empty capture, `compute_flow_features` takes the early-return
branch and every one of the 13 numeric fields equals 0 (and, being a total
function, it raises nothing). -/
theorem compute_flow_features_empty :
    (computeFlowFeatures []).pkt_size_mean = 0 ∧
    (computeFlowFeatures []).pkt_size_std = 0 ∧
    (computeFlowFeatures []).pkt_size_cv = 0 ∧
    (computeFlowFeatures []).inter_mean = 0 ∧
    (computeFlowFeatures []).inter_std = 0 ∧
    (computeFlowFeatures []).inter_cv = 0 ∧
    (computeFlowFeatures []).p95_inter = 0 ∧
    (computeFlowFeatures []).burst_mean = 0 ∧
    (computeFlowFeatures []).burst_max = 0 ∧
    (computeFlowFeatures []).num_silence_gaps = 0 ∧
    (computeFlowFeatures []).silence_ratio = 0 ∧
    (computeFlowFeatures []).flow_duration = 0 ∧
    (computeFlowFeatures []).pkt_rate = 0 :=
  ⟨rfl, rfl, rfl, rfl, rfl, rfl, rfl, rfl, rfl, rfl, rfl, rfl, rfl⟩

/-- C3: `num_silence_gaps` counts exactly the inter-arrival values strictly
greater than 2.0 seconds; in particular (second conjunct, a capture whose only
inter-arrival value is exactly 2.0) a value of exactly 2.0 is not counted. -/
theorem num_silence_gaps_strict_gt (capture : List Packet) :
    (computeFlowFeatures capture).num_silence_gaps =
      (capture.tail.map Packet.inter_arrival).countP
        (fun x => decide (SILENCE_THRESHOLD < x)) ∧
    (computeFlowFeatures (buildCapture [(0, 5), (2, 7)])).num_silence_gaps = 0 := by
  constructor
  · cases capture with
    | nil => simp [computeFlowFeatures]
    | cons p rest =>
      simp [computeFlowFeatures, List.countP_eq_length_filter]
  · simp [computeFlowFeatures, buildCapture, buildCaptureAux, SILENCE_THRESHOLD]

/-- C4: for a single-packet capture of payload size `s`, the size mean is `s`,
the size standard deviation is 0, and every inter-arrival-derived field as
well as `flow_duration` and `pkt_rate` is 0. -/
theorem compute_flow_features_singleton (t s ia : ℚ) :
    (computeFlowFeatures [⟨t, s, ia⟩]).pkt_size_mean = s ∧
    (computeFlowFeatures [⟨t, s, ia⟩]).pkt_size_std = 0 ∧
    (computeFlowFeatures [⟨t, s, ia⟩]).inter_mean = 0 ∧
    (computeFlowFeatures [⟨t, s, ia⟩]).inter_std = 0 ∧
    (computeFlowFeatures [⟨t, s, ia⟩]).inter_cv = 0 ∧
    (computeFlowFeatures [⟨t, s, ia⟩]).p95_inter = 0 ∧
    (computeFlowFeatures [⟨t, s, ia⟩]).num_silence_gaps = 0 ∧
    (computeFlowFeatures [⟨t, s, ia⟩]).silence_ratio = 0 ∧
    (computeFlowFeatures [⟨t, s, ia⟩]).flow_duration = 0 ∧
    (computeFlowFeatures [⟨t, s, ia⟩]).pkt_rate = 0 := by
  simp [computeFlowFeatures, npMean, npVar, npStd]

/-- C7: the extractor is pure.  Its result depends only on the captured packet
list: any two object states sharing `current_capture` (in particular states
with different leftover `last_packet_time`) give the same record, and two
invocations on the same state give identical records. -/
theorem compute_flow_features_pure (cap : List Packet) (l1 l2 : Option ℚ) :
    computeFlowFeaturesFrom ⟨cap, l1⟩ = computeFlowFeaturesFrom ⟨cap, l2⟩ ∧
    computeFlowFeaturesFrom ⟨cap, l1⟩ = computeFlowFeaturesFrom ⟨cap, l1⟩ :=
  ⟨rfl, rfl⟩

/-- C9: the stored `inter_arrival` of the first packet never influences the
result — replacing it by an arbitrary value `v` leaves every output field
unchanged, because `compute_flow_features` aggregates inter-arrival values
over `current_capture[1:]` only; and `packet_callback` indeed records the
placeholder 0 for the first packet of a capture. -/
theorem first_inter_arrival_never_influences
    (capture : List Packet) (v t s : ℚ) (obs : List (ℚ × ℚ)) :
    computeFlowFeatures (setFirstInterArrival capture v) = computeFlowFeatures capture ∧
    (buildCapture ((t, s) :: obs)).head? = some ⟨t, s, 0⟩ := by
  constructor
  · cases capture with
    | nil => rfl
    | cons p rest => simp [computeFlowFeatures, setFirstInterArrival]
  · rfl

/-- C6: the spec's concrete scenario.  Packets at times
`[0.0, 0.1, 0.2, 3.0, 3.1]` with sizes `[100, 200, 150, 300, 100]` produce the
inter-arrivals `[0.1, 0.1, 2.8, 0.1]`, one silence gap, a flow duration of
3.1 s, a packet rate of `5 / 3.1` and a silence ratio of `2.8 / 3.1`. -/
theorem concrete_scenario_features :
    scenarioCapture.tail.map Packet.inter_arrival = [1 / 10, 1 / 10, 14 / 5, 1 / 10] ∧
    (computeFlowFeatures scenarioCapture).num_silence_gaps = 1 ∧
    (computeFlowFeatures scenarioCapture).flow_duration = 31 / 10 ∧
    (computeFlowFeatures scenarioCapture).pkt_rate = 50 / 31 ∧
    (computeFlowFeatures scenarioCapture).silence_ratio = 28 / 31 := by
  refine ⟨?_, ?_⟩
  · norm_num [scenarioCapture, buildCapture, buildCaptureAux]
  · norm_num [computeFlowFeatures, scenarioCapture, buildCapture, buildCaptureAux,
      SILENCE_THRESHOLD]

/-- Sum of a sublist selected by a filter is at most the full sum when every
element is nonnegative. -/
theorem sum_filter_le_sum_of_nonneg (l : List ℚ) (p : ℚ → Bool)
    (h : ∀ x ∈ l, 0 ≤ x) : (l.filter p).sum ≤ l.sum := by
  induction l with
  | nil => simp
  | cons a l ih =>
    have ha : 0 ≤ a := h a (List.mem_cons_self a l)
    have ih2 := ih (fun x hx => h x (List.mem_cons_of_mem a hx))
    by_cases hp : p a
    · simp only [List.filter_cons, hp, if_pos, List.sum_cons]
      simpa using ih2
    · simp only [List.filter_cons, Bool.not_eq_true] at hp ⊢
      rw [hp]
      simp only [Bool.false_eq_true, if_false, List.sum_cons]
      linarith

/-- C5: with nonnegative inter-arrival values, `silence_ratio` is the sum of
the inter-arrivals exceeding 2.0 s divided by the sum of all inter-arrivals,
with the convention that a zero denominator gives 0; when the denominator is
positive, the ratio lies in `[0, 1]`. -/
theorem silence_ratio_formula_and_bounds (capture : List Packet)
    (h : ∀ x ∈ capture.tail.map Packet.inter_arrival, 0 ≤ x) :
    ((computeFlowFeatures capture).silence_ratio =
      if (capture.tail.map Packet.inter_arrival).sum = 0 then 0
      else ((capture.tail.map Packet.inter_arrival).filter
              (fun x => SILENCE_THRESHOLD < x)).sum /
           (capture.tail.map Packet.inter_arrival).sum) ∧
    (0 < (capture.tail.map Packet.inter_arrival).sum →
      0 ≤ (computeFlowFeatures capture).silence_ratio ∧
      (computeFlowFeatures capture).silence_ratio ≤ 1) := by
  have hsum : 0 ≤ (capture.tail.map Packet.inter_arrival).sum := List.sum_nonneg h
  have hfield : (computeFlowFeatures capture).silence_ratio =
      if 0 < (capture.tail.map Packet.inter_arrival).sum then
        ((capture.tail.map Packet.inter_arrival).filter
            (fun x => SILENCE_THRESHOLD < x)).sum /
          (capture.tail.map Packet.inter_arrival).sum
      else 0 := by
    cases capture with
    | nil => simp [computeFlowFeatures]
    | cons p rest => simp [computeFlowFeatures]
  constructor
  · rw [hfield]
    rcases eq_or_lt_of_le hsum with h0 | h0
    · rw [if_neg (by rw [← h0]; exact lt_irrefl 0), if_pos h0.symm]
    · rw [if_pos h0, if_neg (by positivity)]
  · intro hpos
    rw [hfield, if_pos hpos]
    have hnum0 : 0 ≤ ((capture.tail.map Packet.inter_arrival).filter
        (fun x => SILENCE_THRESHOLD < x)).sum := by
      apply List.sum_nonneg
      intro x hx
      exact h x (List.mem_of_mem_filter hx)
    have hle : ((capture.tail.map Packet.inter_arrival).filter
        (fun x => SILENCE_THRESHOLD < x)).sum ≤
        (capture.tail.map Packet.inter_arrival).sum :=
      sum_filter_le_sum_of_nonneg _ _ h
    exact ⟨div_nonneg hnum0 hsum, (div_le_one hpos).mpr hle⟩

/-- Closed instance of `silence_ratio_formula_and_bounds`: a two-packet capture
whose single inter-arrival value 3 is a silence gap, giving ratio `3/3`. -/
theorem silence_ratio_formula_and_bounds_witness :
    ((computeFlowFeatures [⟨0, 1, 0⟩, ⟨3, 1, 3⟩]).silence_ratio =
      if (([⟨0, 1, 0⟩, ⟨3, 1, 3⟩] : List Packet).tail.map Packet.inter_arrival).sum = 0 then 0
      else ((([⟨0, 1, 0⟩, ⟨3, 1, 3⟩] : List Packet).tail.map Packet.inter_arrival).filter
              (fun x => SILENCE_THRESHOLD < x)).sum /
           (([⟨0, 1, 0⟩, ⟨3, 1, 3⟩] : List Packet).tail.map Packet.inter_arrival).sum) ∧
    (0 < (([⟨0, 1, 0⟩, ⟨3, 1, 3⟩] : List Packet).tail.map Packet.inter_arrival).sum →
      0 ≤ (computeFlowFeatures [⟨0, 1, 0⟩, ⟨3, 1, 3⟩]).silence_ratio ∧
      (computeFlowFeatures [⟨0, 1, 0⟩, ⟨3, 1, 3⟩]).silence_ratio ≤ 1) :=
  silence_ratio_formula_and_bounds [⟨0, 1, 0⟩, ⟨3, 1, 3⟩] (by norm_num)

/-!
Burst-window characterization (C2): helper lemmas relating the source's
re-filtered window to the spec's closed-interval count, valid for
non-decreasing timestamps.
-/

theorem filter_comp_window (l : List ℚ) (c t : ℚ) (hct : c ≤ t) :
    (l.filter (fun x => c - x ≤ BURST_WINDOW)).filter (fun x => t - x ≤ BURST_WINDOW) =
      l.filter (fun x => t - x ≤ BURST_WINDOW) := by
  rw [List.filter_filter]
  apply List.filter_congr
  intro x _
  by_cases h : t - x ≤ BURST_WINDOW
  · have h2 : c - x ≤ BURST_WINDOW := le_trans (by linarith) h
    simp [h, h2]
  · simp [h]

theorem singleton_filter_self (t : ℚ) :
    [t].filter (fun x => t - x ≤ BURST_WINDOW) = [t] := by
  norm_num [BURST_WINDOW]

theorem burstAux_eq_burstSpecAux (ts : List ℚ) :
    ∀ (pre : List ℚ) (c : ℚ),
      List.Pairwise (· ≤ ·) ts → (∀ t ∈ ts, c ≤ t) → (∀ x ∈ pre, x ≤ c) →
      burstAux (pre.filter (fun x => c - x ≤ BURST_WINDOW)) ts = burstSpecAux pre ts := by
  induction ts with
  | nil => intro pre c _ _ _; rfl
  | cons t rest ih =>
    intro pre c hp hts hpre
    have hct : c ≤ t := hts t (List.mem_cons_self t rest)
    have hpair := List.pairwise_cons.mp hp
    have hw : (pre.filter (fun x => c - x ≤ BURST_WINDOW)).filter
          (fun x => t - x ≤ BURST_WINDOW) ++ [t]
        = (pre ++ [t]).filter (fun x => t - x ≤ BURST_WINDOW) := by
      rw [filter_comp_window pre c t hct, List.filter_append, singleton_filter_self]
    have hxle : ∀ x ∈ pre ++ [t], x ≤ t := by
      intro x hx
      rcases List.mem_append.mp hx with hx | hx
      · exact le_trans (hpre x hx) hct
      · rw [List.mem_singleton.mp hx]
    have hhead : ((pre ++ [t]).countP (fun x => decide (t - BURST_WINDOW ≤ x ∧ x ≤ t)))
        = ((pre ++ [t]).filter (fun x => t - x ≤ BURST_WINDOW)).length := by
      rw [List.countP_eq_length_filter]
      congr 1
      apply List.filter_congr
      intro x hx
      apply decide_eq_decide.mpr
      constructor
      · rintro ⟨h1, _⟩; linarith
      · intro h1; exact ⟨by linarith, hxle x hx⟩
    simp only [burstAux, burstSpecAux]
    rw [hw, hhead]
    congr 1
    exact ih (pre ++ [t]) t hpair.2 hpair.1 hxle

theorem burstCounts_eq_spec (ts : List ℚ) (hs : List.Pairwise (· ≤ ·) ts) :
    burstCounts ts = burstCountsSpec ts := by
  cases ts with
  | nil => rfl
  | cons t rest =>
    have hts : ∀ u ∈ t :: rest, t ≤ u := by
      intro u hu
      rcases List.mem_cons.mp hu with h | h
      · rw [h]
      · exact (List.pairwise_cons.mp hs).1 u h
    have := burstAux_eq_burstSpecAux (t :: rest) [] t hs hts (by intro x hx; cases hx)
    simpa [burstCounts, burstCountsSpec] using this

theorem burstSpecAux_getElem (ts : List ℚ) :
    ∀ (pre : List ℚ) (i : ℕ) (hi : i < ts.length),
      (burstSpecAux pre ts)[i]? =
        some ((pre ++ ts.take (i + 1)).countP
          (fun x => decide (ts[i] - BURST_WINDOW ≤ x ∧ x ≤ ts[i]))) := by
  induction ts with
  | nil => intro pre i hi; exact absurd hi (by simp)
  | cons t rest ih =>
    intro pre i hi
    cases i with
    | zero =>
      simp [burstSpecAux]
    | succ i =>
      have hi2 : i < rest.length := by simpa using hi
      have h := ih (pre ++ [t]) i hi2
      simp only [burstSpecAux, List.getElem?_cons_succ]
      rw [h]
      simp [List.take_succ_cons, List.append_assoc]

theorem burstAux_length (ts : List ℚ) : ∀ w : List ℚ, (burstAux w ts).length = ts.length := by
  induction ts with
  | nil => intro w; rfl
  | cons t rest ih => intro w; simp [burstAux, ih]

theorem burst_fields_cons (p : Packet) (rest : List Packet) :
    (computeFlowFeatures (p :: rest)).burst_mean =
      (if burstCounts ((p :: rest).map Packet.arrival_time) = [] then 0
       else npMean ((burstCounts ((p :: rest).map Packet.arrival_time)).map (fun n : ℕ => (n : ℚ)))) ∧
    (computeFlowFeatures (p :: rest)).burst_max =
      ((burstCounts ((p :: rest).map Packet.arrival_time)).max?).getD 0 :=
  ⟨rfl, rfl⟩

theorem burst_window_spec (capture : List Packet)
    (hs : List.Pairwise (· ≤ ·) (capture.map Packet.arrival_time)) :
    (∀ (i : ℕ) (hi : i < (capture.map Packet.arrival_time).length),
      (burstCounts (capture.map Packet.arrival_time))[i]? =
        some (((capture.map Packet.arrival_time).take (i + 1)).countP
          (fun x => decide ((capture.map Packet.arrival_time)[i] - BURST_WINDOW ≤ x ∧
                            x ≤ (capture.map Packet.arrival_time)[i])))) ∧
    (computeFlowFeatures capture).burst_mean =
      npMean ((burstCounts (capture.map Packet.arrival_time)).map (fun n : ℕ => (n : ℚ))) ∧
    (computeFlowFeatures capture).burst_max =
      ((burstCounts (capture.map Packet.arrival_time)).max?).getD 0 := by
  refine ⟨?_, ?_, ?_⟩
  · intro i hi
    rw [burstCounts_eq_spec _ hs]
    have h := burstSpecAux_getElem (capture.map Packet.arrival_time) [] i hi
    simpa [burstCountsSpec] using h
  · cases capture with
    | nil => simp [computeFlowFeatures, burstCounts, burstAux, npMean]
    | cons p rest =>
      have hne : burstCounts ((p :: rest).map Packet.arrival_time) ≠ [] := by
        have hl : (burstCounts ((p :: rest).map Packet.arrival_time)).length =
            ((p :: rest).map Packet.arrival_time).length :=
          burstAux_length ((p :: rest).map Packet.arrival_time) []
        intro hcon
        rw [hcon] at hl
        simp at hl
      rw [(burst_fields_cons p rest).1, if_neg hne]
  · cases capture with
    | nil => simp [computeFlowFeatures, burstCounts, burstAux]
    | cons p rest => exact (burst_fields_cons p rest).2

theorem burst_window_spec_witness :
    (burstCounts (twoPacketCapture.map Packet.arrival_time))[0]? =
      some (((twoPacketCapture.map Packet.arrival_time).take 1).countP
        (fun x => decide ((twoPacketCapture.map Packet.arrival_time)[0] - BURST_WINDOW ≤ x ∧
                          x ≤ (twoPacketCapture.map Packet.arrival_time)[0]))) ∧
    (computeFlowFeatures twoPacketCapture).burst_mean =
      npMean ((burstCounts (twoPacketCapture.map Packet.arrival_time)).map (fun n : ℕ => (n : ℚ))) ∧
    (computeFlowFeatures twoPacketCapture).burst_max =
      ((burstCounts (twoPacketCapture.map Packet.arrival_time)).max?).getD 0 := by
  have h := burst_window_spec twoPacketCapture (by norm_num [twoPacketCapture])
  exact ⟨h.1 0 (by norm_num [twoPacketCapture]), h.2.1, h.2.2⟩

/-- Every count produced by the burst loop is at least 1: the current packet is appended to the window before its length is recorded. -/
theorem burstAux_one_le (ts : List ℚ) :
    ∀ (w : List ℚ), ∀ c ∈ burstAux w ts, 1 ≤ c := by
  induction ts with
  | nil => intro w c hc; cases hc
  | cons t rest ih =>
    intro w c hc
    rcases List.mem_cons.mp hc with h | h
    · rw [h]
      simp
    · exact ih _ c h

/-- A list of rationals that are all at least 1 sums to at least its length. -/
theorem length_le_sum_of_one_le (L : List ℚ) (h : ∀ x ∈ L, 1 ≤ x) :
    (L.length : ℚ) ≤ L.sum := by
  induction L with
  | nil => simp
  | cons a l ih =>
    have ha := h a (List.mem_cons_self a l)
    have ih2 := ih (fun x hx => h x (List.mem_cons_of_mem a hx))
    simp only [List.length_cons, List.sum_cons]
    push_cast
    linarith

/-- The mean of a nonempty list whose elements are all at least 1 is at least 1. -/
theorem one_le_npMean (L : List ℚ) (hne : L ≠ []) (h : ∀ x ∈ L, 1 ≤ x) :
    1 ≤ npMean L := by
  have hlen : 0 < (L.length : ℚ) := by
    have := List.length_pos.mpr hne
    exact_mod_cast this
  rw [npMean, le_div_iff₀ hlen, one_mul]
  exact length_le_sum_of_one_le L h

/-- Folding `max` over a list never goes below the start value. -/
theorem le_foldl_max (l : List ℕ) : ∀ b : ℕ, b ≤ l.foldl max b := by
  induction l with
  | nil => intro b; exact le_refl b
  | cons c l ih =>
    intro b
    exact le_trans (le_max_left b c) (ih (max b c))

/-- The maximum of a nonempty list of naturals that are all at least 1 is at least 1. -/
theorem one_le_max?_getD (l : List ℕ) (hne : l ≠ []) (h : ∀ c ∈ l, 1 ≤ c) :
    1 ≤ (l.max?).getD 0 := by
  cases l with
  | nil => exact absurd rfl hne
  | cons a l =>
    have : (a :: l).max? = some (l.foldl max a) := rfl
    rw [this]
    exact le_trans (h a (List.mem_cons_self a l)) (le_foldl_max l a)

/-- C10: for a non-empty capture every per-packet burst count is at least 1 (each packet counts itself), hence `burst_mean` and `burst_max` are at least 1; for the empty capture both are 0. -/
theorem burst_metrics_at_least_one (capture : List Packet) :
    (capture = [] →
      (computeFlowFeatures capture).burst_mean = 0 ∧
      (computeFlowFeatures capture).burst_max = 0) ∧
    (capture ≠ [] →
      (∀ c ∈ burstCounts (capture.map Packet.arrival_time), 1 ≤ c) ∧
      1 ≤ (computeFlowFeatures capture).burst_mean ∧
      1 ≤ (computeFlowFeatures capture).burst_max) := by
  constructor
  · intro h
    subst h
    exact ⟨rfl, rfl⟩
  · intro h
    cases capture with
    | nil => exact absurd rfl h
    | cons p rest =>
      have hone : ∀ c ∈ burstCounts ((p :: rest).map Packet.arrival_time), 1 ≤ c :=
        burstAux_one_le ((p :: rest).map Packet.arrival_time) []
      have hne : burstCounts ((p :: rest).map Packet.arrival_time) ≠ [] := by
        have hl : (burstCounts ((p :: rest).map Packet.arrival_time)).length =
            ((p :: rest).map Packet.arrival_time).length :=
          burstAux_length ((p :: rest).map Packet.arrival_time) []
        intro hcon
        rw [hcon] at hl
        simp at hl
      refine ⟨hone, ?_, ?_⟩
      · rw [(burst_fields_cons p rest).1, if_neg hne]
        apply one_le_npMean
        · intro hcon
          exact hne (List.map_eq_nil_iff.mp hcon)
        · intro x hx
          obtain ⟨n, hn, hnx⟩ := List.mem_map.mp hx
          rw [← hnx]
          exact_mod_cast hone n hn
      · rw [(burst_fields_cons p rest).2]
        exact one_le_max?_getD _ hne hone

/-- Closed instance of `burst_metrics_at_least_one` at a one-packet capture. -/
theorem burst_metrics_at_least_one_witness :
    1 ≤ (computeFlowFeatures [⟨0, 100, 0⟩]).burst_mean ∧
    1 ≤ (computeFlowFeatures [⟨0, 100, 0⟩]).burst_max :=
  ⟨((burst_metrics_at_least_one [⟨0, 100, 0⟩]).2 (by simp)).2.1,
   ((burst_metrics_at_least_one [⟨0, 100, 0⟩]).2 (by simp)).2.2⟩

/-- Packets sharing one arrival time never expire from the burst window. -/
theorem replicate_zero_filter (k : ℕ) :
    (List.replicate k (0:ℚ)).filter (fun x => (0:ℚ) - x ≤ BURST_WINDOW) =
      List.replicate k (0:ℚ) := by
  apply List.filter_eq_self.mpr
  intro a ha
  rw [(List.mem_replicate.mp ha).2]
  norm_num [BURST_WINDOW]

/-- Exact predicate-evaluation cost of the burst loop on `n` simultaneous packets starting from a window of `k` retained entries: the window never shrinks, so iteration `i` scans `k + i` entries. -/
theorem burstAuxCost_replicate :
    ∀ (n k : ℕ),
      2 * burstAuxCost (List.replicate k (0:ℚ)) (List.replicate n (0:ℚ)) + n =
        2 * n * k + n * n := by
  intro n
  induction n with
  | zero => intro k; simp [burstAuxCost]
  | succ n ih =>
    intro k
    rw [List.replicate_succ (0:ℚ) n]
    simp only [burstAuxCost, replicate_zero_filter, List.length_replicate]
    rw [← List.replicate_succ' k (0:ℚ)]
    have h := ih (k + 1)
    zify at h ⊢
    linear_combination h

/-- On `n` packets with identical arrival times the burst loop performs exactly `n * (n - 1) / 2` filter-predicate evaluations (stated without natural subtraction). -/
theorem burstCost_replicate (n : ℕ) :
    2 * burstCost (List.replicate n (0:ℚ)) + n = n * n := by
  have h := burstAuxCost_replicate n 0
  simpa [burstCost] using h

/-- C8 counterexample: the burst computation is not O(total packets) amortized. No constant `C` bounds the number of filter-predicate evaluations by `C` times the packet count; `n` packets inside one 0.5 s window cost `n * (n - 1) / 2` evaluations, because the list comprehension re-scans the whole retained window for every packet. -/
theorem burst_cost_not_linear :
    ¬ ∃ C : ℕ, ∀ ts : List ℚ, burstCost ts ≤ C * ts.length := by
  rintro ⟨C, hC⟩
  have h1 := hC (List.replicate (2 * C + 2) (0:ℚ))
  rw [List.length_replicate] at h1
  have h2 := burstCost_replicate (2 * C + 2)
  have h3 : (2 * C + 2) * (2 * C + 2) ≤ (2 * C + 2) * (2 * C + 1) := by
    calc (2 * C + 2) * (2 * C + 2)
        = 2 * burstCost (List.replicate (2 * C + 2) (0:ℚ)) + (2 * C + 2) := h2.symm
      _ ≤ 2 * (C * (2 * C + 2)) + (2 * C + 2) :=
          Nat.add_le_add_right (Nat.mul_le_mul_left 2 h1) _
      _ = (2 * C + 2) * (2 * C + 1) := by ring
  have h4 : 2 * C + 2 ≤ 2 * C + 1 :=
    Nat.le_of_mul_le_mul_left h3 (by omega)
  omega

/-- C8 amended: the burst metric is computed by a sliding window that expires
entries older than 0.5 s as each packet is processed, but each step rebuilds
the retained window with a full filter pass, so the total work is the sum of
the retained window sizes — quadratic, not linear, in the worst case: on `n`
simultaneous packets the loop performs `n * (n - 1) / 2` predicate
evaluations. -/
theorem burst_cost_quadratic_on_simultaneous (n : ℕ) :
    2 * burstCost (List.replicate n (0:ℚ)) + n = n * n :=
  burstCost_replicate n
